import Mathlib

/-!
Verification of the cache decision engine of the `magento2-cloudflare-apo`
worker (full-page-cache Cloudflare worker for Magento 2).

The TypeScript sources are shallowly embedded: JavaScript strings are Lean
`String`s manipulated through their underlying `List Char` data (the
JavaScript string primitives `split`, `trim`, `toLowerCase`, `startsWith`,
`endsWith`, `includes`, `join` are re-implemented as executable functions on
character lists with the same semantics), millisecond timestamps are `Int`
(the value of `Date.now()`), truthiness of optional strings/numbers follows
the JavaScript rules (absent, `''` and `0` are falsy), and the regular
expressions appearing in the sources (`/private/i`, `/no-store|no-cache/i`,
`/s-maxage=(\d+)/i`, `/max-age=(\d+)/i`) are unfolded into the
case-insensitive substring/scan operations they denote.  Configurable regex
patterns (device detection) are abstracted as boolean-valued test functions
carried in the configuration, exactly as the code only ever calls
`pattern.test(...)` on them.
-/

/-! ### JavaScript string toolkit -/

/-- Lower-case every character (model of `String.prototype.toLowerCase` for
the ASCII data this worker handles). -/
def lcLower (l : List Char) : List Char := l.map Char.toLower

/-- `toLowerCase` on strings. -/
def jsLower (s : String) : String := ⟨lcLower s.data⟩

/-- Model of `String.prototype.split(sep)` for a single-character separator:
`"" ↦ [""]`, `";" ↦ ["", ""]`, etc. -/
def splitOnCharL (sep : Char) : List Char → List (List Char)
  | [] => [[]]
  | c :: rest =>
    let r := splitOnCharL sep rest
    if c = sep then [] :: r
    else
      match r with
      | [] => [[c]]
      | h :: t => (c :: h) :: t

/-- `split` on strings. -/
def jsSplitChar (sep : Char) (s : String) : List String :=
  (splitOnCharL sep s.data).map fun l => ⟨l⟩

/-- Model of `String.prototype.trim`. -/
def trimL (l : List Char) : List Char :=
  ((l.dropWhile Char.isWhitespace).reverse.dropWhile Char.isWhitespace).reverse

/-- `trim` on strings. -/
def jsTrim (s : String) : String := ⟨trimL s.data⟩

/-- Model of `String.prototype.startsWith`. -/
def jsStartsWith (s pre : String) : Bool := pre.data.isPrefixOf s.data

/-- Model of `String.prototype.endsWith`. -/
def jsEndsWith (s suf : String) : Bool := suf.data.isSuffixOf s.data

/-- Model of `String.prototype.includes` (contiguous substring test). -/
def jsIncludes (s sub : String) : Bool := decide (sub.data <:+: s.data)

/-- Case-insensitive substring test; model of `/pat/i.test(s)` for a regex
that is a literal word. -/
def jsIncludesCI (s sub : String) : Bool :=
  decide ((lcLower sub.data) <:+: (lcLower s.data))

/-- Model of `Array.prototype.join(sep)` at the character-list level. -/
def joinSepL (sep : List Char) : List (List Char) → List Char
  | [] => []
  | [x] => x
  | x :: y :: xs => x ++ sep ++ joinSepL sep (y :: xs)

/-- `join` on strings. -/
def joinSep (sep : String) (l : List String) : String :=
  ⟨joinSepL sep.data (l.map String.data)⟩

/-- Drop the final character; model of `str.slice(0, -1)`. -/
def jsDropLast (s : String) : String := ⟨s.data.dropLast⟩

/-- JavaScript truthiness of a nullable string (`null` and `''` are falsy). -/
def jsTruthyOpt (o : Option String) : Bool :=
  match o with
  | none => false
  | some s => decide (s ≠ "")

/-- JavaScript `a || b` for a nullable/possibly-empty string. -/
def jsOrStr (s d : String) : String := if s = "" then d else s

/-- JavaScript `a || b` where `a` is an optional number (absent and `0` are
falsy). -/
def jsOrOptInt (o : Option Int) (d : Int) : Int :=
  match o with
  | none => d
  | some v => if v = 0 then d else v

/-- `Math.ceil(a / b)` for integer `a` and positive integer `b`. -/
def jsCeilDiv (a b : Int) : Int := -((-a).fdiv b)

/-- `[...new Set(xs)]`: deduplicate keeping first occurrences. -/
def jsSetDedup : List String → List String
  | [] => []
  | x :: xs => if x ∈ xs then
      (if (jsSetDedup xs).contains x then jsSetDedup xs else x :: jsSetDedup xs)
    else x :: jsSetDedup xs

/-- Parse a run of decimal digits (the `(\d+)` capture of the TTL regexes). -/
def digitsToNat (l : List Char) : Nat :=
  l.foldl (fun acc c => acc * 10 + (c.toNat - '0'.toNat)) 0

/-- Scan for the first position where `pat` is followed by at least one
digit, and return the parsed digit run: model of `s.match(/pat(\d+)/)` on an
already lower-cased haystack. -/
def scanDirective (pat : List Char) : List Char → Option Nat
  | [] => none
  | c :: rest =>
    if pat.isPrefixOf (c :: rest) &&
        (match (c :: rest).drop pat.length with
         | d :: _ => d.isDigit
         | [] => false) then
      some (digitsToNat (((c :: rest).drop pat.length).takeWhile Char.isDigit))
    else scanDirective pat rest

/-- Model of `String.prototype.replaceAll` (left-to-right, non-overlapping). -/
def replaceAllL (pat rep : List Char) (l : List Char) : List Char :=
  if hp : pat = [] then l
  else
    if hm : pat.isPrefixOf l then
      have : l.length - pat.length < l.length := by
        have hle : pat.length ≤ l.length := (List.isPrefixOf_iff_prefix.mp hm).length_le
        have hpos : 0 < pat.length := List.length_pos.mpr hp
        omega
      rep ++ replaceAllL pat rep (l.drop pat.length)
    else
      match l with
      | [] => []
      | c :: r => c :: replaceAllL pat rep r
termination_by l.length
decreasing_by
  · simpa using this
  · simp

/-- `replaceAll` on strings. -/
def jsReplaceAll (s pat rep : String) : String := ⟨replaceAllL pat.data rep.data s.data⟩

/-! ### Headers

The Fetch `Headers` object: a case-insensitive name/value map.  Modelled as
an association list with case-insensitive lookup/update/delete. -/

/-- `headers.get(name)` (case-insensitive; `none` models `null`). -/
def hGet (hs : List (String × String)) (name : String) : Option String :=
  (hs.find? fun p => jsLower p.1 = jsLower name).map Prod.snd

/-- `headers.has(name)`. -/
def hHas (hs : List (String × String)) (name : String) : Bool :=
  hs.any fun p => jsLower p.1 = jsLower name

/-- `headers.delete(name)`. -/
def hDelete (hs : List (String × String)) (name : String) : List (String × String) :=
  hs.filter fun p => !(jsLower p.1 = jsLower name : Bool)

/-- `headers.set(name, value)`. -/
def hSet (hs : List (String × String)) (name value : String) : List (String × String) :=
  hDelete hs name ++ [(name, value)]

/-! ### Configuration and per-request context (`config.ts`, `context.ts`)

`Config` carries the fields of `buildConfig` that the cache decision engine
reads.  The device-detection regexes are abstracted as their `test`
functions. -/

structure Config where
  defaultTtl : Int
  graceSeconds : Int
  hitForPassSeconds : Int
  respectPrivateNoCache : Bool
  respectCacheControl : Bool
  marketingParams : List String
  excludedPaths : List String
  varyCookies : List String
  varyHeaders : List String
  varyOnDeviceType : Bool
  mobileUaTest : String → Bool
  tabletUaTest : String → Bool
  cacheableMimeTypes : List String
  returnClaims : Bool
  replaceOriginLinks : Bool
  originHost : Option String
  originProtocol : Option String

/-- The per-request `Context` built by `createContext`: the request facts the
decision engine reads.  The URL is carried as hostname/pathname plus the
decoded query-parameter pairs of `url.searchParams` (in document order), and
request headers that the engine consults are carried directly. -/
structure Context where
  method : String
  hostname : String
  host : String
  protocol : String
  pathname : String
  queryPairs : List (String × String)
  rangeHeader : Option String
  userAgent : String
  reqHeaders : List (String × String)
  cookieHeader : String
  sslOffloaded : String
  isStatic : Bool
  isHealthCheck : Bool
  isGraphql : Bool
  magentoCacheId : String
  hasAuthToken : Bool
  store : String
  currency : String
  claims : List String
  config : Config

/-- `matchesPattern(value, pattern)` from `context.ts`: a pattern ending in
`*` matches case-insensitively by prefix, otherwise case-insensitive
equality; the empty pattern matches nothing. -/
def matchesPattern (value pattern : String) : Bool :=
  if pattern = "" then false
  else if jsEndsWith pattern "*" then
    jsStartsWith (jsLower value) (jsLower (jsDropLast pattern))
  else jsLower value = jsLower pattern

/-- `stripMarketingParams` from `context.ts`, at the level of the
query-parameter pair list: returns the remaining pairs (in order) and the
list of removed keys (in key-snapshot order, duplicates included, exactly as
the imperative loop pushes them). -/
def stripMarketingParams (params : List (String × String)) (patterns : List String) :
    List (String × String) × List String :=
  if params.isEmpty then (params, [])
  else
    ((params.filter fun p => !(patterns.any fun pat => matchesPattern p.1 pat)),
     ((params.map Prod.fst).filter fun k => patterns.any fun pat => matchesPattern k pat))

structure BypassResult where
  bypass : Bool
  reason : String
deriving DecidableEq

/-- `shouldBypass` from `context.ts`: rules in fixed order, first match wins. -/
def shouldBypass (ctx : Context) : BypassResult :=
  if ctx.method ≠ "GET" ∧ ctx.method ≠ "HEAD" then
    ⟨true, "method:" ++ ctx.method⟩
  else if ctx.method = "HEAD" ∧ jsTruthyOpt ctx.rangeHeader then
    ⟨true, "range-head"⟩
  else if ctx.isHealthCheck then ⟨true, "health-check"⟩
  else if ctx.isStatic then ⟨true, "static-path"⟩
  else if ctx.config.excludedPaths.any (fun p => jsIncludes ctx.pathname p) then
    ⟨true, "excluded-path"⟩
  else if ctx.isGraphql ∧ ctx.hasAuthToken ∧ ctx.magentoCacheId = "" then
    ⟨true, "graphql-auth-pass"⟩
  else ⟨false, ""⟩

/-- `extractCookieValue` from `context.ts`: split the cookie header on `;`,
trim, keep non-empty chunks; for each configured name take the first chunk
that starts (case-insensitively) with `name=` and contribute
`found.split('=')[1] || ''`; join the contributions with `_`. -/
def extractCookieValue (cookieHeader : String) (names : List String) : String :=
  if cookieHeader = "" ∨ names = [] then ""
  else
    let cookies := ((jsSplitChar ';' cookieHeader).map jsTrim).filter fun s => decide (s ≠ "")
    joinSep "_" (names.filterMap fun name =>
      match cookies.find? (fun c => jsStartsWith (jsLower c) (jsLower name ++ "=")) with
      | some found =>
        some (match splitOnCharL '=' found.data with
              | _ :: v :: _ => (⟨v⟩ : String)
              | _ => "")
      | none => none)

/-- `extractVaryHeaders` from `context.ts`: for each configured header name
with a truthy value, contribute `name=value`; join with `_`. -/
def extractVaryHeaders (headers : List (String × String)) (names : List String) : String :=
  if names = [] then ""
  else
    joinSep "_" (names.filterMap fun name =>
      match hGet headers name with
      | some v => if v = "" then none else some (name ++ "=" ++ v)
      | none => none)

/-- `detectDeviceType` from `context.ts`. -/
def detectDeviceType (userAgent : String) (cfg : Config) : String :=
  if userAgent = "" then "desktop"
  else if cfg.mobileUaTest userAgent then "mobile"
  else if cfg.tabletUaTest userAgent then "tablet"
  else "desktop"

/-! #### `computeCacheKey` (from `context.ts`), as the chain of appends the
source performs on `key`. -/

/-- Comparator used to model `a.localeCompare(b)`-based sorting: total
lexicographic order on the character data. -/
def leChars : List Char → List Char → Bool
  | [], _ => true
  | _ :: _, [] => false
  | a :: as, b :: bs => if a = b then leChars as bs else decide (a < b)

/-- The stable sort `pairs.sort(([a], [b]) => a.localeCompare(b))`. -/
def sortPairs (l : List (String × String)) : List (String × String) :=
  l.mergeSort fun p q => leChars p.1.data q.1.data

/-- `pairs.map(([k, v]) => `k=v`).join('&')`. -/
def renderPairs (l : List (String × String)) : String :=
  joinSep "&" (l.map fun p => p.1 ++ "=" ++ p.2)

def keyBase (ctx : Context) : String := "fpc:" ++ ctx.hostname ++ ctx.pathname

def keyQuery (ctx : Context) : String :=
  if ctx.queryPairs.length ≠ 0 then
    let pairs := sortPairs ctx.queryPairs
    if pairs.length ≠ 0 then keyBase ctx ++ "?" ++ renderPairs pairs else keyBase ctx
  else keyBase ctx

def keyIdentity (ctx : Context) : String :=
  if ctx.isGraphql ∧ ctx.magentoCacheId ≠ "" then
    (keyQuery ctx ++ "::graphql:" ++ ctx.magentoCacheId) ++
      (if ctx.hasAuthToken then ":authorized" else "")
  else
    let varyCookie := extractCookieValue ctx.cookieHeader ctx.config.varyCookies
    if varyCookie ≠ "" then keyQuery ctx ++ "::vary:" ++ varyCookie else keyQuery ctx

def keyVaryHeaders (ctx : Context) : String :=
  let v := extractVaryHeaders ctx.reqHeaders ctx.config.varyHeaders
  if v ≠ "" then keyIdentity ctx ++ "::vh:" ++ v else keyIdentity ctx

def keyDevice (ctx : Context) : String :=
  if ctx.config.varyOnDeviceType then
    keyVaryHeaders ctx ++ "::device:" ++ detectDeviceType ctx.userAgent ctx.config
  else keyVaryHeaders ctx

def keySsl (ctx : Context) : String :=
  if ctx.sslOffloaded ≠ "" then keyDevice ctx ++ "::ssl:" ++ ctx.sslOffloaded
  else keyDevice ctx

def keyStoreCurrency (ctx : Context) : String :=
  if ctx.isGraphql then
    let k := if ctx.store ≠ "" then keySsl ctx ++ "::store:" ++ ctx.store else keySsl ctx
    if ctx.currency ≠ "" then k ++ "::currency:" ++ ctx.currency else k
  else keySsl ctx

/-- `computeCacheKey` from `context.ts`. -/
def computeCacheKey (ctx : Context) : String := keyStoreCurrency ctx

/-! ### Cache records and the key-value store writes (`cache.ts`) -/

inductive RecordState where
  | cache
  | pass
deriving DecidableEq

/-- The `CacheRecord` JSON shape: a union discriminated by `state`, with the
optional fields optional exactly as in the TypeScript interface. -/
structure CacheRecord where
  state : RecordState
  status : Option Nat := none
  statusText : Option String := none
  headers : Option (List (String × String)) := none
  body : Option String := none
  expires : Int
  staleUntil : Option Int := none
deriving DecidableEq

/-- The external TTL (seconds) that `writeCacheRecord` passes to
`kv.put(..., { expirationTtl })`:
`Math.max(60, Math.ceil(((record.staleUntil || record.expires) - Date.now()) / 1000))`. -/
def writeCacheRecordTtl (record : CacheRecord) (now : Int) : Int :=
  max 60 (jsCeilDiv (jsOrOptInt record.staleUntil record.expires - now) 1000)

/-- The external TTL (seconds) that `storeHitForPass` passes to the store:
`Math.max(1, config.hitForPassSeconds)`. -/
def hitForPassTtl (cfg : Config) : Int := max 1 cfg.hitForPassSeconds

/-- The `pass`-variant record built by `storeHitForPass`. -/
def hitForPassRecord (cfg : Config) (now : Int) : CacheRecord :=
  { state := .pass, expires := now + hitForPassTtl cfg * 1000 }

/-- Classification of a stored `cache`-variant record by the worker `fetch`
handler (`index.ts`): `record.expires > now` serves a `HIT`;
otherwise `record.staleUntil && record.staleUntil > now` serves a `STALE`
with background revalidation; otherwise the record is expired and the
request is treated as a miss. -/
inductive RecordClass where
  | fresh
  | staleServable
  | expired
deriving DecidableEq

def classifyRecord (expires : Int) (staleUntil : Option Int) (now : Int) : RecordClass :=
  if expires > now then .fresh
  else
    match staleUntil with
    | some s => if s ≠ 0 ∧ s > now then .staleServable else .expired
    | none => .expired

/-! ### Origin fetch and cacheability pipeline (`origin.ts`) -/

/-- The data of the origin `Response` that the cacheability pipeline
inspects: status, status text, header list, and the buffered body text. -/
structure OriginResp where
  status : Nat
  statusText : String
  headers : List (String × String)
  body : String

/-- Outcome of a `shouldCache` plugin-hook run (`runShouldCache`): a veto,
a hit-for-pass demand, or approval (`true`/absent hooks). -/
inductive PluginCacheDecision where
  | allow
  | block
  | hfp
deriving DecidableEq

/-- `deriveTtl` from `origin.ts` (the `/s-maxage=(\d+)/i` then
`/max-age=(\d+)/i` regex scan, only when `respectCacheControl`). -/
def deriveTtl (cacheControl : String) (cfg : Config) : Int :=
  if ¬ cfg.respectCacheControl ∨ cacheControl = "" then cfg.defaultTtl
  else
    match scanDirective "s-maxage=".data (lcLower cacheControl.data) with
    | some n => (n : Int)
    | none =>
      match scanDirective "max-age=".data (lcLower cacheControl.data) with
      | some n => (n : Int)
      | none => cfg.defaultTtl

/-- `sanitizeHeaders` from `origin.ts`: drop `Age`, `X-Powered-By`,
`Server`, `Via`, `X-Varnish`, `Link` (case-insensitively). -/
def sanitizeHeaders (hs : List (String × String)) : List (String × String) :=
  hs.filter fun p =>
    !(["age", "x-powered-by", "server", "via", "x-varnish", "link"].contains (jsLower p.1))

/-- The decision that `fetchCacheableResponse` reaches about the origin
response: skip with one of the closed reason tokens, or produce a
`cache`-variant record. -/
inductive FetchDecision where
  | skip (reason : String)
  | store (record : CacheRecord)
deriving DecidableEq

/-- The cacheability pipeline of `fetchCacheableResponse` (`origin.ts`),
checks in source order: status/`private`; no-store/no-cache-or-`Vary: *`
hit-for-pass; content-type allowlist; body length; GraphQL cache-id
mismatch; plugin `shouldCache`; otherwise build the record with
`expires = now + ttl*1000` and `staleUntil = expires + graceSeconds*1000`. -/
def fetchDecision (ctx : Context) (resp : OriginResp)
    (pluginDecision : PluginCacheDecision) (now : Int) : FetchDecision :=
  let cfg := ctx.config
  let cacheControl := (hGet resp.headers "Cache-Control").getD ""
  let surrogate := (hGet resp.headers "Surrogate-Control").getD ""
  let vary := (hGet resp.headers "Vary").getD ""
  let setCookie := hGet resp.headers "Set-Cookie"
  if (resp.status ≠ 200 ∧ resp.status ≠ 404) ∨ jsIncludesCI cacheControl "private" then
    .skip "status"
  else
    let noStoreHeader := jsIncludesCI cacheControl "no-store" ∨
      jsIncludesCI cacheControl "no-cache" ∨ jsIncludesCI surrogate "no-store"
    if (cfg.respectPrivateNoCache ∧ noStoreHeader) ∨ vary = "*" then
      .skip "hit-for-pass"
    else
      let headers1 := if jsTruthyOpt setCookie then hDelete resp.headers "Set-Cookie"
        else resp.headers
      let contentType := jsLower ((hGet headers1 "Content-Type").getD "")
      if ¬ cfg.cacheableMimeTypes.any (fun m => jsIncludes contentType (jsLower m)) then
        .skip "content-type"
      else
        let headers2 := if jsTruthyOpt (hGet headers1 "X-Magento-Debug") then
            hSet headers1 "X-Magento-Cache-Control" cacheControl
          else headers1
        let ttl0 := deriveTtl cacheControl cfg
        let ttlSeconds := if ttl0 ≤ 0 then cfg.defaultTtl else ttl0
        if resp.body.data.length < 3 then .skip "body-too-small"
        else if ctx.isGraphql ∧ ctx.magentoCacheId ≠ "" ∧
            (match hGet headers2 "X-Magento-Cache-Id" with
             | some rid => decide (rid ≠ "") && decide (rid ≠ ctx.magentoCacheId)
             | none => false : Bool) then
          .skip "graphql-mismatch"
        else
          match pluginDecision with
          | .block => .skip "plugin-blocked"
          | .hfp => .skip "hit-for-pass"
          | .allow =>
            let expires := now + ttlSeconds * 1000
            let staleUntil := expires + cfg.graceSeconds * 1000
            .store
              { state := .cache
                status := some resp.status
                statusText := some (jsOrStr resp.statusText "")
                headers := some (sanitizeHeaders headers2)
                body := some resp.body
                expires := expires
                staleUntil := some staleUntil }

/-- A write issued to the key-value store on the miss path. -/
inductive StoreWrite where
  | putCache (record : CacheRecord) (ttlSeconds : Int)
  | putPass (record : CacheRecord) (ttlSeconds : Int)
deriving DecidableEq

/-- The store writes the worker `fetch` handler performs after the miss-path
pipeline (`index.ts`): a produced record goes through `writeCacheRecord`;
a `hit-for-pass` skip goes through `storeHitForPass`; any other skip writes
nothing. -/
def missPathStoreWrites (fd : FetchDecision) (cfg : Config) (now : Int) : List StoreWrite :=
  match fd with
  | .store record => [.putCache record (writeCacheRecordTtl record now)]
  | .skip reason =>
    if reason = "hit-for-pass" then [.putPass (hitForPassRecord cfg now) (hitForPassTtl cfg)]
    else []

/-- The background revalidation task (`revalidate` in `origin.ts`): the
whole pipeline run and the body consumption sit inside `try { ... } catch`,
and the catch block only logs.  The two fallible awaited steps are modelled
by their outcomes (`Except` values); the function's own outcome is what the
caller of the background task observes. -/
def revalidate (pipelineOutcome : Except String FetchDecision)
    (consumeOutcome : Except String Unit) : Except String Unit :=
  match pipelineOutcome with
  | .error _ => .ok ()
  | .ok _ =>
    match consumeOutcome with
    | .error _ => .ok ()
    | .ok _ => .ok ()

/-! ### Response finalization (`response.ts`, `cache.ts`) -/

/-- The data of a Fetch `Response` the engine constructs: a `none` body
models `new Response(null, ...)`. -/
structure RespData where
  status : Nat
  statusText : String
  headers : List (String × String)
  body : Option String
deriving DecidableEq

/-- `replaceOriginLinks` from `response.ts`. -/
def replaceOriginLinks (body : String) (ctx : Context) : String :=
  match ctx.config.originHost with
  | none => body
  | some originHost =>
    if originHost = ctx.host then body
    else
      let originProtocol := (ctx.config.originProtocol).getD ctx.protocol
      let originBase := originProtocol ++ "//" ++ originHost
      let requestBase := ctx.protocol ++ "//" ++ ctx.host
      let r1 := jsReplaceAll body originBase requestBase
      jsReplaceAll r1 ("//" ++ originHost) ("//" ++ ctx.host)

/-- The header-mutation block of `finalizeResponse` (`response.ts`): the
state of the `headers` object after the debug/indicator/no-store/removal/
claims mutations, before the response object is rebuilt. -/
def finalizeHeaders (response : RespData) (ctx : Context) (cacheState : String) :
    List (String × String) :=
  let claims1 := ctx.claims ++ ["cache:" ++ jsLower cacheState]
  let h1 := if ¬ hHas response.headers "X-Magento-Cache-Debug" then
      hSet response.headers "X-Magento-Cache-Debug"
        (if cacheState = "UNCACHEABLE" then "UNCACHEABLE" else cacheState)
    else response.headers
  let h2 := hSet h1 "X-FPC-Cache" cacheState
  let h3 := if cacheState = "STALE" then hSet h2 "X-FPC-Grace" "normal" else h2
  let h4 := if cacheState = "UNCACHEABLE" then hDelete h3 "X-FPC-Grace" else h3
  let cc := (hGet h4 "Cache-Control").getD ""
  let h5 := if ¬ ctx.isStatic ∧ (cc = "" ∨ ¬ jsIncludesCI cc "private") then
      hSet (hSet (hSet h4 "Pragma" "no-cache") "Expires" "-1") "Cache-Control"
        "no-store, no-cache, must-revalidate, max-age=0"
    else h4
  let h6 := if ¬ hHas h5 "X-Magento-Debug" then hDelete h5 "Age" else h5
  let h7 := ["X-Magento-Debug", "X-Magento-Tags", "X-Pool", "X-Powered-By", "Server",
      "X-Varnish", "Via", "Link"].foldl hDelete h6
  if ctx.config.returnClaims ∧ claims1 ≠ [] then
    hSet h7 "X-APO-Claims" (joinSep "|" (jsSetDedup claims1))
  else h7

/-- `finalizeResponse` from `response.ts`: header hygiene, the
`X-FPC-Cache`/`X-FPC-Grace` indicators, forced browser no-store headers,
internal-header removal, optional claims header; then a `HEAD` request gets
a `null` body, otherwise the (possibly link-rewritten) body. -/
def finalizeResponse (response : RespData) (ctx : Context) (cacheState : String) : RespData :=
  let h8 := finalizeHeaders response ctx cacheState
  if ctx.method = "HEAD" then
    { status := response.status, statusText := response.statusText, headers := h8, body := none }
  else if ctx.config.replaceOriginLinks ∧ jsTruthyOpt ctx.config.originHost then
    let contentType := (hGet h8 "Content-Type").getD ""
    if jsIncludes contentType "text/html" ∨ jsIncludes contentType "text/css" ∨
        jsIncludes contentType "application/javascript" ∨
        jsIncludes contentType "application/json" then
      { status := response.status, statusText := response.statusText, headers := h8,
        body := some (replaceOriginLinks (response.body.getD "") ctx) }
    else
      { status := response.status, statusText := response.statusText, headers := h8,
        body := response.body }
  else
    { status := response.status, statusText := response.statusText, headers := h8,
      body := response.body }

/-- The `Response` that `buildCachedResponse` (`cache.ts`) rebuilds from a
stored `cache`-variant record before finalization: `status || 200`,
`statusText || ''`, `body ?? ''`, the stored headers plus the debug
headers, and a `null` body for `HEAD`. -/
def cachedInnerResponse (record : CacheRecord) (ctx : Context) (status : String) : RespData :=
  let headers0 := record.headers.getD []
  let h1 := hSet headers0 "X-FPC-Cache" status
  let h2 := if status = "STALE" then hSet h1 "X-FPC-Grace" "normal" else h1
  let h3 := hSet h2 "X-Magento-Cache-Debug"
    (if status = "HIT" ∨ status = "STALE" then "HIT" else status)
  let respStatus := match record.status with
    | some s => if s = 0 then 200 else s
    | none => 200
  let respStatusText := jsOrStr (record.statusText.getD "") ""
  let body := record.body.getD ""
  if ctx.method = "HEAD" then
    { status := respStatus, statusText := respStatusText, headers := h3, body := none }
  else
    { status := respStatus, statusText := respStatusText, headers := h3, body := some body }

/-- `buildCachedResponse` from `cache.ts`: the rebuilt record response run
through `finalizeResponse`. -/
def buildCachedResponse (record : CacheRecord) (ctx : Context) (status : String) : RespData :=
  finalizeResponse (cachedInnerResponse record ctx status) ctx status

/-! ### Concrete fixtures (defaults from `config.ts`) used by witnesses -/

/-- A configuration with the shipped defaults (`DEFAULTS` in `config.ts`),
with the device regexes instantiated by never-matching tests. -/
def baseConfig : Config :=
  { defaultTtl := 86400
    graceSeconds := 259200
    hitForPassSeconds := 120
    respectPrivateNoCache := false
    respectCacheControl := false
    marketingParams := ["gclid", "fbclid", "utm_*"]
    excludedPaths := ["/admin", "/customer", "/checkout", "/cart"]
    varyCookies := ["X-Magento-Vary"]
    varyHeaders := []
    varyOnDeviceType := true
    mobileUaTest := fun _ => false
    tabletUaTest := fun _ => false
    cacheableMimeTypes := ["text/html", "text/css", "text/javascript", "application/javascript"]
    returnClaims := false
    replaceOriginLinks := false
    originHost := none
    originProtocol := none }

/-- A plain anonymous `GET https://shop.test/p` context. -/
def baseContext : Context :=
  { method := "GET"
    hostname := "shop.test"
    host := "shop.test"
    protocol := "https:"
    pathname := "/p"
    queryPairs := []
    rangeHeader := none
    userAgent := ""
    reqHeaders := []
    cookieHeader := ""
    sslOffloaded := ""
    isStatic := false
    isHealthCheck := false
    isGraphql := false
    magentoCacheId := ""
    hasAuthToken := false
    store := ""
    currency := ""
    claims := []
    config := baseConfig }

/-! ### Claim C1 — external TTL floors -/

/-- Claim C1 (counterexample): the `pass`-variant write floors its external
TTL at 1 second, not 60: with `hitForPassSeconds = 30` the TTL handed to the
store by `storeHitForPass` is 30 seconds, refuting "never shorter
than 60 seconds" for pass records. -/
theorem c1_pass_ttl_counterexample :
    hitForPassTtl { baseConfig with hitForPassSeconds := 30 } = 30 ∧
    ¬ 60 ≤ hitForPassTtl { baseConfig with hitForPassSeconds := 30 } ∧
    missPathStoreWrites (.skip "hit-for-pass") { baseConfig with hitForPassSeconds := 30 } 0 =
      [.putPass { state := .pass, expires := 30000 } 30] := by
  refine ⟨by decide, by decide, ?_⟩
  simp [missPathStoreWrites, hitForPassRecord, hitForPassTtl, baseConfig]

/-- Claim C1 (amended): the external TTL of a `cache`-variant record written
by `writeCacheRecord` is derived from `staleUntil` (falling back to
`expires` when `staleUntil` is falsy) and is never below the 60-second
floor; the external TTL of a `pass`-variant record written by
`storeHitForPass` equals `max 1 hitForPassSeconds` — floored at 1 second,
not 60 — and the pass record's `expires` is derived from that same TTL. -/
theorem c1_ttl_floor_amended :
    (∀ (record : CacheRecord) (now : Int), 60 ≤ writeCacheRecordTtl record now) ∧
    (∀ (record : CacheRecord) (now s : Int), record.staleUntil = some s → s ≠ 0 →
      writeCacheRecordTtl record now = max 60 (jsCeilDiv (s - now) 1000)) ∧
    (∀ cfg : Config, 1 ≤ hitForPassTtl cfg) ∧
    (∀ (cfg : Config) (now : Int),
      (hitForPassRecord cfg now).expires = now + hitForPassTtl cfg * 1000) := by
  refine ⟨fun record now => le_max_left _ _, ?_, fun cfg => le_max_left _ _, fun cfg now => rfl⟩
  intro record now s hsu hs
  simp [writeCacheRecordTtl, jsOrOptInt, hsu, hs]

/-- Witness for `c1_ttl_floor_amended` at a concrete record. -/
theorem c1_ttl_floor_amended_witness :
    60 ≤ writeCacheRecordTtl { state := .cache, expires := 1000, staleUntil := some 200000 } 0 ∧
    writeCacheRecordTtl { state := .cache, expires := 1000, staleUntil := some 200000 } 0 =
      max 60 (jsCeilDiv (200000 - 0) 1000) :=
  ⟨c1_ttl_floor_amended.1 _ 0, c1_ttl_floor_amended.2.1 _ 0 200000 rfl (by decide)⟩

/-! ### Claim C2 — state-classification boundaries -/

/-- Claim C2: for a stored `cache`-variant record (which satisfies
`expires ≤ staleUntil` and has a non-negative `expires` timestamp), at
`now = expires - 1` the record is fresh (`HIT`), at `now = expires` it is
stale-servable exactly when `staleUntil > expires` and expired otherwise,
and at `now = staleUntil` it is expired. -/
theorem c2_state_boundaries (expires staleUntil : Int)
    (hpos : 0 ≤ expires) (hord : expires ≤ staleUntil) :
    classifyRecord expires (some staleUntil) (expires - 1) = .fresh ∧
    classifyRecord expires (some staleUntil) expires =
      (if expires < staleUntil then .staleServable else .expired) ∧
    classifyRecord expires (some staleUntil) staleUntil = .expired := by
  refine ⟨?_, ?_, ?_⟩
  · simp only [classifyRecord]
    rw [if_pos (by omega)]
  · by_cases h : expires < staleUntil
    · have hne : staleUntil ≠ 0 := by omega
      simp only [classifyRecord]
      rw [if_neg (by omega), if_pos ⟨hne, by omega⟩, if_pos h]
    · have heq : staleUntil = expires := by omega
      simp only [classifyRecord]
      rw [if_neg (by omega), if_neg (by omega), if_neg h]
  · simp only [classifyRecord]
    rw [if_neg (by omega), if_neg (by omega)]

/-- Witness for `c2_state_boundaries` at `expires = 1000`,
`staleUntil = 2000`. -/
theorem c2_state_boundaries_witness :
    classifyRecord 1000 (some 2000) (1000 - 1) = .fresh ∧
    classifyRecord 1000 (some 2000) 1000 =
      (if (1000 : Int) < 2000 then RecordClass.staleServable else .expired) ∧
    classifyRecord 1000 (some 2000) 2000 = .expired :=
  c2_state_boundaries 1000 2000 (by decide) (by decide)

/-! ### Claim C7 — bypass rule order -/

/-- Claim C7: `shouldBypass` applies its rules in fixed order with the first
match winning: any non-GET/HEAD method bypasses with reason
`method:<verb>` whatever the path flags say, and a HEAD request with a
(truthy) `Range` header bypasses with reason `range-head` whatever the path
flags say. -/
theorem c7_bypass_precedence :
    (∀ ctx : Context, ctx.method ≠ "GET" → ctx.method ≠ "HEAD" →
      shouldBypass ctx = ⟨true, "method:" ++ ctx.method⟩) ∧
    (∀ (ctx : Context) (r : String), ctx.method = "HEAD" → ctx.rangeHeader = some r →
      r ≠ "" → shouldBypass ctx = ⟨true, "range-head"⟩) := by
  constructor
  · intro ctx h1 h2
    simp only [shouldBypass]
    rw [if_pos ⟨h1, h2⟩]
  · intro ctx r hm hr hne
    simp only [shouldBypass]
    rw [if_neg (by simp [hm]), if_pos ⟨hm, by simp [hr, jsTruthyOpt, hne]⟩]

/-- Witness for `c7_bypass_precedence`: a POST to an excluded path, and a
HEAD with a `Range` header to a plain path. -/
theorem c7_bypass_precedence_witness :
    shouldBypass { baseContext with method := "POST", pathname := "/cart" } =
      ⟨true, "method:" ++ ({ baseContext with method := "POST", pathname := "/cart" } :
        Context).method⟩ ∧
    shouldBypass { baseContext with method := "HEAD", rangeHeader := some "bytes=0-99" } =
      ⟨true, "range-head"⟩ :=
  ⟨c7_bypass_precedence.1 _ (by decide) (by decide),
   c7_bypass_precedence.2 _ "bytes=0-99" rfl rfl (by decide)⟩

/-! ### Claim C8 — background revalidation never propagates -/

/-- Claim C8: `revalidate` returns normally for every outcome of the origin
fetch/cacheability pipeline and of the body consumption: any failure is
caught by its `try/catch` and swallowed, so no exception reaches the caller
that already served the stale response. -/
theorem c8_revalidate_never_throws :
    ∀ (p : Except String FetchDecision) (c : Except String Unit),
      revalidate p c = .ok () := by
  intro p c
  cases p <;> cases c <;> rfl

/-! ### Claim C6 — marketing-parameter stripping -/

/-- Closed form of `stripMarketingParams`: the imperative deletion loop
keeps exactly the pairs whose key matches no pattern and records, in
snapshot order, every key that matches one. -/
theorem stripMarketingParams_eq (params : List (String × String)) (patterns : List String) :
    stripMarketingParams params patterns =
      (params.filter fun p => !(patterns.any fun pat => matchesPattern p.1 pat),
       if params.isEmpty then []
       else (params.map Prod.fst).filter fun k => patterns.any fun pat => matchesPattern k pat) := by
  by_cases hp : params.isEmpty
  · have hnil : params = [] := by simpa using hp
    subst hnil
    simp [stripMarketingParams]
  · simp [stripMarketingParams, hp]

/-- Claim C6: `stripMarketingParams` is idempotent — run on the parameter
list it has already normalized it removes nothing and leaves the list
unchanged — and no stripped key appears among the keys that the cache-key
derivation serializes into the query component of the key (the keys of the
sorted remaining pairs). -/
theorem c6_strip_idempotent_absent :
    (∀ (params : List (String × String)) (patterns : List String),
      stripMarketingParams (stripMarketingParams params patterns).1 patterns =
        ((stripMarketingParams params patterns).1, [])) ∧
    (∀ (params : List (String × String)) (patterns : List String) (k : String),
      k ∈ (stripMarketingParams params patterns).2 →
      k ∉ (sortPairs (stripMarketingParams params patterns).1).map Prod.fst) := by
  constructor
  · intro params patterns
    rw [stripMarketingParams_eq, stripMarketingParams_eq]
    simp only [Prod.mk.injEq]
    constructor
    · rw [List.filter_eq_self]
      intro a ha
      exact (List.mem_filter.mp ha).2
    · by_cases h2 : (params.filter fun p =>
          !(patterns.any fun pat => matchesPattern p.1 pat)).isEmpty
      · rw [if_pos h2]
      · rw [if_neg h2, List.filter_eq_nil_iff]
        intro k hk
        obtain ⟨p, hpmem, hpk⟩ := List.mem_map.mp hk
        have h3 := (List.mem_filter.mp hpmem).2
        rw [← hpk]
        simpa using h3
  · intro params patterns k hk hmem
    rw [stripMarketingParams_eq] at hk hmem
    by_cases hp : params.isEmpty
    · rw [if_pos hp] at hk
      simp at hk
    · rw [if_neg hp] at hk
      have hq : (patterns.any fun pat => matchesPattern k pat) = true :=
        (List.mem_filter.mp hk).2
      have hperm : (sortPairs (params.filter fun p =>
          !(patterns.any fun pat => matchesPattern p.1 pat))).Perm
          (params.filter fun p => !(patterns.any fun pat => matchesPattern p.1 pat)) :=
        List.mergeSort_perm _ _
      have hmem2 : k ∈ (params.filter fun p =>
          !(patterns.any fun pat => matchesPattern p.1 pat)).map Prod.fst :=
        ((hperm.map Prod.fst).mem_iff).mp hmem
      obtain ⟨p, hpmem, hpk⟩ := List.mem_map.mp hmem2
      have hnot := (List.mem_filter.mp hpmem).2
      rw [hpk] at hnot
      simp [hq] at hnot

/-- Witness for `c6_strip_idempotent_absent` on
`?gclid=abc&color=red` with pattern list `["gclid"]`. -/
theorem c6_strip_idempotent_absent_witness :
    stripMarketingParams
        (stripMarketingParams [("gclid", "abc"), ("color", "red")] ["gclid"]).1 ["gclid"] =
      ((stripMarketingParams [("gclid", "abc"), ("color", "red")] ["gclid"]).1, []) ∧
    "gclid" ∉ (sortPairs
        (stripMarketingParams [("gclid", "abc"), ("color", "red")] ["gclid"]).1).map Prod.fst :=
  ⟨c6_strip_idempotent_absent.1 _ _,
   c6_strip_idempotent_absent.2 [("gclid", "abc"), ("color", "red")] ["gclid"] "gclid"
     (by decide)⟩

/-! ### Claim C9 — cookie extraction for the vary key -/

/-- `split` on a chunk containing no separator yields that chunk alone. -/
theorem splitOnCharL_of_not_mem {sep : Char} {l : List Char} (h : sep ∉ l) :
    splitOnCharL sep l = [l] := by
  induction l with
  | nil => rfl
  | cons c rest ih =>
    have hc : ¬ c = sep := fun hc => h (hc ▸ List.mem_cons_self c rest)
    have hr : sep ∉ rest := fun hr => h (List.mem_cons_of_mem _ hr)
    simp only [splitOnCharL, ih hr, if_neg hc]

/-- `split` peels a separator-free chunk before the first separator. -/
theorem splitOnCharL_append {sep : Char} {a rest : List Char} (h : sep ∉ a) :
    splitOnCharL sep (a ++ sep :: rest) = a :: splitOnCharL sep rest := by
  induction a with
  | nil => simp [splitOnCharL]
  | cons c a' ih =>
    have hc : ¬ c = sep := fun hc => h (hc ▸ List.mem_cons_self c a')
    have ha : sep ∉ a' := fun ha => h (List.mem_cons_of_mem _ ha)
    rw [List.cons_append]
    simp only [splitOnCharL, ih ha, if_neg hc]

/-- `dropWhile` is the identity when no element satisfies the predicate. -/
theorem dropWhile_eq_self_of_forall {p : Char → Bool} {l : List Char}
    (h : ∀ c ∈ l, p c = false) : l.dropWhile p = l := by
  cases l with
  | nil => rfl
  | cons c xs =>
    rw [List.dropWhile_cons, if_neg (by simp [h c (List.mem_cons_self c xs)])]

/-- `trim` is the identity on whitespace-free text. -/
theorem trimL_eq_self_of_forall {l : List Char}
    (h : ∀ c ∈ l, c.isWhitespace = false) : trimL l = l := by
  unfold trimL
  rw [dropWhile_eq_self_of_forall h,
    dropWhile_eq_self_of_forall (fun c hc => h c (List.mem_reverse.mp hc)),
    List.reverse_reverse]

/-- A string built from a non-empty character list is not `""`. -/
theorem strMk_ne_empty {l : List Char} (h : l ≠ []) : (⟨l⟩ : String) ≠ "" := by
  intro he
  apply h
  have := congrArg String.data he
  simpa using this

/-- Claim C9: `extractCookieValue` matches cookie names case-insensitively —
the result depends on the configured names only through their lower-casing —
and a matching cookie pair contributes only the text between the first and
second `=`: on a vary cookie `name=value=rest`, whatever follows the second
`=` is dropped, so headers that differ only there contribute the same key
fragment. -/
theorem c9_cookie_extraction :
    (∀ (header : String) (ns1 ns2 : List String), ns1.map jsLower = ns2.map jsLower →
      extractCookieValue header ns1 = extractCookieValue header ns2) ∧
    (∀ n v w : String,
      (∀ c ∈ n.data, c ≠ ';' ∧ c ≠ '=' ∧ c.isWhitespace = false) →
      (∀ c ∈ v.data, c ≠ ';' ∧ c ≠ '=' ∧ c.isWhitespace = false) →
      (∀ c ∈ w.data, c ≠ ';' ∧ c.isWhitespace = false) →
      extractCookieValue (n ++ "=" ++ v ++ "=" ++ w) [n] = v) := by
  constructor
  · intro header ns1 ns2 hmap
    by_cases hh : header = ""
    · simp [extractCookieValue, hh]
    · by_cases hn1 : ns1 = []
      · have hn2 : ns2 = [] := by
          subst hn1
          exact List.map_eq_nil_iff.mp hmap.symm
        simp [extractCookieValue, hn1, hn2]
      · have hn2 : ¬ ns2 = [] := by
          intro h2
          subst h2
          exact hn1 (List.map_eq_nil_iff.mp hmap)
        simp only [extractCookieValue]
        rw [if_neg (by simp [hh, hn1]), if_neg (by simp [hh, hn2])]
        have hcomp : ∀ ns : List String,
            (ns.filterMap fun name =>
              match (((jsSplitChar ';' header).map jsTrim).filter
                  fun s => decide (s ≠ "")).find?
                  (fun c => jsStartsWith (jsLower c) (jsLower name ++ "=")) with
              | some found =>
                some (match splitOnCharL '=' found.data with
                      | _ :: v :: _ => (⟨v⟩ : String)
                      | _ => "")
              | none => none) =
            ((ns.map jsLower).filterMap fun lname =>
              match (((jsSplitChar ';' header).map jsTrim).filter
                  fun s => decide (s ≠ "")).find?
                  (fun c => jsStartsWith (jsLower c) (lname ++ "=")) with
              | some found =>
                some (match splitOnCharL '=' found.data with
                      | _ :: v :: _ => (⟨v⟩ : String)
                      | _ => "")
              | none => none) := by
          intro ns
          rw [List.filterMap_map]
          rfl
        rw [hcomp ns1, hcomp ns2, hmap]
  · intro n v w hn hv hw
    have hne : (n ++ "=" ++ v ++ "=" ++ w) ≠ "" := by
      intro h
      have := congrArg String.data h
      simp [String.data_append] at this
    have hdata : (n ++ "=" ++ v ++ "=" ++ w).data =
        n.data ++ '=' :: (v.data ++ '=' :: w.data) := by
      simp [String.data_append]
    have hnosemi : ';' ∉ (n ++ "=" ++ v ++ "=" ++ w).data := by
      rw [hdata]
      intro hmem
      rcases List.mem_append.mp hmem with h1 | h1
      · exact ((hn _ h1).1 rfl).elim
      · rcases List.mem_cons.mp h1 with h2 | h2
        · exact absurd h2 (by decide)
        · rcases List.mem_append.mp h2 with h3 | h3
          · exact ((hv _ h3).1 rfl).elim
          · rcases List.mem_cons.mp h3 with h4 | h4
            · exact absurd h4 (by decide)
            · exact ((hw _ h4).1 rfl).elim
    have hnows : ∀ c ∈ (n ++ "=" ++ v ++ "=" ++ w).data, c.isWhitespace = false := by
      rw [hdata]
      intro c hmem
      rcases List.mem_append.mp hmem with h1 | h1
      · exact (hn _ h1).2.2
      · rcases List.mem_cons.mp h1 with h2 | h2
        · subst h2; decide
        · rcases List.mem_append.mp h2 with h3 | h3
          · exact (hv _ h3).2.2
          · rcases List.mem_cons.mp h3 with h4 | h4
            · subst h4; decide
            · exact (hw _ h4).2
    have hsplit : jsSplitChar ';' (n ++ "=" ++ v ++ "=" ++ w) =
        [⟨(n ++ "=" ++ v ++ "=" ++ w).data⟩] := by
      unfold jsSplitChar
      rw [splitOnCharL_of_not_mem hnosemi]
      rfl
    have htrim : jsTrim ⟨(n ++ "=" ++ v ++ "=" ++ w).data⟩ =
        ⟨(n ++ "=" ++ v ++ "=" ++ w).data⟩ := by
      unfold jsTrim
      rw [trimL_eq_self_of_forall hnows]
    have hpred : jsStartsWith (jsLower ⟨(n ++ "=" ++ v ++ "=" ++ w).data⟩)
        (jsLower n ++ "=") = true := by
      unfold jsStartsWith
      apply List.isPrefixOf_iff_prefix.mpr
      show (jsLower n ++ "=").data <+: (jsLower ⟨(n ++ "=" ++ v ++ "=" ++ w).data⟩).data
      have h1 : (jsLower n ++ "=").data = lcLower n.data ++ ['='] := by
        simp [String.data_append, jsLower]
      have h2 : (jsLower ⟨(n ++ "=" ++ v ++ "=" ++ w).data⟩).data =
          lcLower n.data ++ ['='] ++ lcLower (v.data ++ '=' :: w.data) := by
        show lcLower (n ++ "=" ++ v ++ "=" ++ w).data = _
        rw [hdata]
        simp [lcLower]
      rw [h1, h2]
      exact List.prefix_append _ _
    have heq : extractCookieValue (n ++ "=" ++ v ++ "=" ++ w) [n] =
        joinSep "_" [match splitOnCharL '=' (n ++ "=" ++ v ++ "=" ++ w).data with
                     | _ :: x :: _ => (⟨x⟩ : String)
                     | _ => ""] := by
      have hdne : (n ++ "=" ++ v ++ "=" ++ w).data ≠ [] := by
        rw [hdata]
        simp
      have hsne : ((⟨(n ++ "=" ++ v ++ "=" ++ w).data⟩ : String)) ≠ "" := strMk_ne_empty hdne
      have hfilter : [(⟨(n ++ "=" ++ v ++ "=" ++ w).data⟩ : String)].filter
          (fun s => decide (s ≠ "")) = [⟨(n ++ "=" ++ v ++ "=" ++ w).data⟩] :=
        List.filter_cons_of_pos (decide_eq_true hsne)
      have hfind : [(⟨(n ++ "=" ++ v ++ "=" ++ w).data⟩ : String)].find?
          (fun c => jsStartsWith (jsLower c) (jsLower n ++ "=")) =
          some ⟨(n ++ "=" ++ v ++ "=" ++ w).data⟩ :=
        List.find?_cons_of_pos [] hpred
      simp only [extractCookieValue]
      rw [if_neg (by simp [hne])]
      rw [hsplit]
      simp only [List.map_cons, List.map_nil, htrim]
      rw [hfilter]
      simp only [List.filterMap_cons, List.filterMap_nil, hfind]
    rw [heq, hdata, splitOnCharL_append (fun hm => (hn _ hm).2.1 rfl),
      splitOnCharL_append (fun hm => (hv _ hm).2.1 rfl)]
    show joinSep "_" [v] = v
    unfold joinSep joinSepL
    rfl

/-- Witness for `c9_cookie_extraction`: name matching ignores case and the
suffix after a second `=` is dropped. -/
theorem c9_cookie_extraction_witness :
    extractCookieValue "X-Magento-Vary=abc=junk" ["x-magento-vary"] =
      extractCookieValue "X-Magento-Vary=abc=junk" ["X-MAGENTO-VARY"] ∧
    extractCookieValue ("X-Magento-Vary" ++ "=" ++ "abc" ++ "=" ++ "junk")
      ["X-Magento-Vary"] = "abc" :=
  ⟨c9_cookie_extraction.1 _ ["x-magento-vary"] ["X-MAGENTO-VARY"] (by decide),
   c9_cookie_extraction.2 "X-Magento-Vary" "abc" "junk" (by decide) (by decide) (by decide)⟩

/-! ### Claim C4 — cache-key determinism and query-order invariance -/

theorem leChars_total : ∀ a b : List Char, (leChars a b || leChars b a) = true := by
  intro a
  induction a with
  | nil => intro b; simp [leChars]
  | cons x xs ih =>
    intro b
    cases b with
    | nil => simp [leChars]
    | cons y ys =>
      by_cases hxy : x = y
      · subst hxy
        simpa [leChars] using ih ys
      · rcases lt_or_gt_of_ne hxy with h | h
        · simp [leChars, hxy, h]
        · simp [leChars, hxy, Ne.symm hxy, not_lt_of_gt h, h]

theorem leChars_trans : ∀ a b c : List Char,
    leChars a b = true → leChars b c = true → leChars a c = true := by
  intro a
  induction a with
  | nil => intro b c _ _; rfl
  | cons x xs ih =>
    intro b c h1 h2
    cases b with
    | nil => simp [leChars] at h1
    | cons y ys =>
      cases c with
      | nil => simp [leChars] at h2
      | cons z zs =>
        by_cases hxy : x = y <;> by_cases hyz : y = z
        · subst hxy; subst hyz
          simp only [leChars, if_pos rfl] at h1 h2 ⊢
          exact ih ys zs h1 h2
        · subst hxy
          simp only [leChars, if_pos rfl, if_neg hyz] at h2
          simp only [leChars, if_neg hyz]
          exact h2
        · subst hyz
          simp only [leChars, if_neg hxy] at h1
          simp only [leChars, if_neg hxy]
          exact h1
        · simp only [leChars, if_neg hxy] at h1
          simp only [leChars, if_neg hyz] at h2
          have hlt : x < z := lt_trans (of_decide_eq_true h1) (of_decide_eq_true h2)
          have hxz : ¬ x = z := ne_of_lt hlt
          simp [leChars, hxz, hlt]

theorem leChars_antisymm : ∀ a b : List Char,
    leChars a b = true → leChars b a = true → a = b := by
  intro a
  induction a with
  | nil =>
    intro b h1 h2
    cases b with
    | nil => rfl
    | cons y ys => simp [leChars] at h2
  | cons x xs ih =>
    intro b h1 h2
    cases b with
    | nil => simp [leChars] at h1
    | cons y ys =>
      by_cases hxy : x = y
      · subst hxy
        simp only [leChars, if_pos rfl] at h1 h2
        rw [ih ys h1 h2]
      · simp only [leChars, if_neg hxy, if_neg (Ne.symm hxy)] at h1 h2
        exact absurd (of_decide_eq_true h2) (not_lt_of_gt (of_decide_eq_true h1))

/-- Sorting the query pairs is invariant under permutations whose keys are
pairwise distinct: the stable sort of any reordering is the same list. -/
theorem sortPairs_congr_perm {q₁ q₂ : List (String × String)} (hperm : q₁.Perm q₂)
    (hnd : (q₁.map Prod.fst).Nodup) : sortPairs q₁ = sortPairs q₂ := by
  have htr : ∀ a b c : String × String, leChars a.1.data b.1.data = true →
      leChars b.1.data c.1.data = true → leChars a.1.data c.1.data = true :=
    fun a b c h1 h2 => leChars_trans _ _ _ h1 h2
  have hto : ∀ a b : String × String,
      (leChars a.1.data b.1.data || leChars b.1.data a.1.data) = true :=
    fun a b => leChars_total _ _
  have hs1 := List.sorted_mergeSort htr hto q₁
  have hs2 := List.sorted_mergeSort htr hto q₂
  have hp : (sortPairs q₁).Perm (sortPairs q₂) :=
    (List.mergeSort_perm q₁ _).trans (hperm.trans (List.mergeSort_perm q₂ _).symm)
  have hnd1 : ((sortPairs q₁).map Prod.fst).Nodup :=
    (((List.mergeSort_perm q₁ _).map Prod.fst).nodup_iff).mpr hnd
  have hnd2 : ((sortPairs q₂).map Prod.fst).Nodup :=
    ((hp.map Prod.fst).nodup_iff).mp hnd1
  have hne1 : (sortPairs q₁).Pairwise fun a b => a.1 ≠ b.1 := by
    rw [List.Nodup, List.pairwise_map] at hnd1
    exact hnd1
  have hne2 : (sortPairs q₂).Pairwise fun a b => a.1 ≠ b.1 := by
    rw [List.Nodup, List.pairwise_map] at hnd2
    exact hnd2
  have hsr1 : (sortPairs q₁).Pairwise fun a b : String × String =>
      leChars a.1.data b.1.data = true ∧ a.1 ≠ b.1 := hs1.and hne1
  have hsr2 : (sortPairs q₂).Pairwise fun a b : String × String =>
      leChars a.1.data b.1.data = true ∧ a.1 ≠ b.1 := hs2.and hne2
  haveI : IsAntisymm (String × String)
      (fun a b => leChars a.1.data b.1.data = true ∧ a.1 ≠ b.1) := by
    constructor
    intro a b h1 h2
    have hdata : a.1.data = b.1.data := leChars_antisymm _ _ h1.1 h2.1
    exact absurd (String.ext hdata) h1.2
  exact List.eq_of_perm_of_sorted hp hsr1 hsr2

/-- `computeCacheKey` depends on the context only through `keyQuery` and the
listed non-query fields. -/
theorem computeCacheKey_congr (c1 c2 : Context)
    (h : keyQuery c1 = keyQuery c2)
    (hg : c1.isGraphql = c2.isGraphql) (hm : c1.magentoCacheId = c2.magentoCacheId)
    (ha : c1.hasAuthToken = c2.hasAuthToken) (hck : c1.cookieHeader = c2.cookieHeader)
    (hcfg : c1.config = c2.config) (hrh : c1.reqHeaders = c2.reqHeaders)
    (hua : c1.userAgent = c2.userAgent) (hssl : c1.sslOffloaded = c2.sslOffloaded)
    (hst : c1.store = c2.store) (hcur : c1.currency = c2.currency) :
    computeCacheKey c1 = computeCacheKey c2 := by
  simp only [computeCacheKey, keyStoreCurrency, keySsl, keyDevice, keyVaryHeaders,
    keyIdentity, hg, hm, ha, hck, hcfg, hrh, hua, hssl, hst, hcur, h]

/-- Claim C4 (amended): when the query-parameter keys are pairwise distinct,
`computeCacheKey` is invariant under any reordering of the query pairs (and
hence a function of host, path, the query pair multiset, cookies, headers
and device class); with duplicate keys the stable sort preserves the
relative order of equal-key pairs, so only the pair sequence up to
reorderings of distinct keys determines the key. -/
theorem c4_cache_key_order_invariance (ctx : Context) (q₂ : List (String × String))
    (hperm : ctx.queryPairs.Perm q₂) (hnd : (ctx.queryPairs.map Prod.fst).Nodup) :
    computeCacheKey { ctx with queryPairs := q₂ } = computeCacheKey ctx := by
  have hsort : sortPairs q₂ = sortPairs ctx.queryPairs :=
    (sortPairs_congr_perm hperm hnd).symm
  have hlen : q₂.length = ctx.queryPairs.length := hperm.length_eq.symm
  have hq : keyQuery { ctx with queryPairs := q₂ } = keyQuery ctx := by
    simp only [keyQuery, keyBase, hsort, hlen]
  exact computeCacheKey_congr _ _ hq rfl rfl rfl rfl rfl rfl rfl rfl rfl rfl

/-- Witness for `c4_cache_key_order_invariance`:
`?b=2&a=1` and `?a=1&b=2` give identical keys. -/
theorem c4_cache_key_order_invariance_witness :
    computeCacheKey { baseContext with queryPairs := [("a", "1"), ("b", "2")] } =
      computeCacheKey { baseContext with queryPairs := [("b", "2"), ("a", "1")] } :=
  c4_cache_key_order_invariance
    { baseContext with queryPairs := [("b", "2"), ("a", "1")] }
    [("a", "1"), ("b", "2")] (by decide) (by decide)

/-- Claim C4 (counterexample): the key is not a function of the query
multiset once keys repeat — `?a=1&a=2` and `?a=2&a=1` carry the same
multiset of pairs but the stable sort preserves their order, producing
different keys. -/
theorem c4_multiset_counterexample :
    Multiset.ofList ({ baseContext with
        queryPairs := [("a", "1"), ("a", "2")] } : Context).queryPairs =
      Multiset.ofList ({ baseContext with
        queryPairs := [("a", "2"), ("a", "1")] } : Context).queryPairs ∧
    computeCacheKey { baseContext with queryPairs := [("a", "1"), ("a", "2")] } ≠
      computeCacheKey { baseContext with queryPairs := [("a", "2"), ("a", "1")] } := by
  constructor
  · decide
  · have hsA : sortPairs [(("a" : String), ("1" : String)), ("a", "2")] =
        [("a", "1"), ("a", "2")] := by
      unfold sortPairs
      exact List.mergeSort_of_sorted (by decide)
    have hsB : sortPairs [(("a" : String), ("2" : String)), ("a", "1")] =
        [("a", "2"), ("a", "1")] := by
      unfold sortPairs
      exact List.mergeSort_of_sorted (by decide)
    intro h
    rw [computeCacheKey, computeCacheKey, keyStoreCurrency, keyStoreCurrency,
      keySsl, keySsl, keyDevice, keyDevice, keyVaryHeaders, keyVaryHeaders,
      keyIdentity, keyIdentity, keyQuery, keyQuery, keyBase, keyBase] at h
    rw [hsA, hsB] at h
    revert h
    decide

/-! ### Claim C3 — `Vary: *` and hit-for-pass -/

/-- A `Vary: *` origin response that fails the status check. -/
def resp500Vary : OriginResp :=
  { status := 500
    statusText := "Server Error"
    headers := [("Vary", "*"), ("Content-Type", "text/html")]
    body := "<html>error</html>" }

/-- A cacheable-status `Vary: *` origin response. -/
def resp200Vary : OriginResp :=
  { status := 200
    statusText := "OK"
    headers := [("Vary", "*"), ("Content-Type", "text/html")]
    body := "<html>ok</html>" }

/-- Claim C3 (counterexample): a `Vary: *` response with status 500 is
rejected by the earlier status check (reason `status`), so no pass-variant
record is stored at all — refuting "a pass-variant record is stored" for
every `Vary: *` response. -/
theorem c3_vary_star_counterexample :
    (hGet resp500Vary.headers "Vary").getD "" = "*" ∧
    fetchDecision baseContext resp500Vary .allow 0 = .skip "status" ∧
    missPathStoreWrites (fetchDecision baseContext resp500Vary .allow 0) baseConfig 0 = [] := by
  refine ⟨by decide, by decide, by decide⟩

/-- Claim C3 (amended): an origin response with `Vary: *` never produces a
cache-variant record; and when it also passes the preceding status check
(status 200 or 404 and no `private` in `Cache-Control`) the pipeline skips
with reason `hit-for-pass` and the handler stores a pass-variant record
whose TTL is the configured hit-for-pass window (floored at 1 second). -/
theorem c3_vary_star_amended :
    (∀ (ctx : Context) (resp : OriginResp) (pd : PluginCacheDecision) (now : Int),
      (hGet resp.headers "Vary").getD "" = "*" →
      ∀ r : CacheRecord, fetchDecision ctx resp pd now ≠ .store r) ∧
    (∀ (ctx : Context) (resp : OriginResp) (pd : PluginCacheDecision) (now : Int),
      (hGet resp.headers "Vary").getD "" = "*" →
      (resp.status = 200 ∨ resp.status = 404) →
      jsIncludesCI ((hGet resp.headers "Cache-Control").getD "") "private" = false →
      fetchDecision ctx resp pd now = .skip "hit-for-pass" ∧
      missPathStoreWrites (fetchDecision ctx resp pd now) ctx.config now =
        [.putPass (hitForPassRecord ctx.config now) (hitForPassTtl ctx.config)]) := by
  constructor
  · intro ctx resp pd now hvary r
    simp only [fetchDecision]
    by_cases h1 : (resp.status ≠ 200 ∧ resp.status ≠ 404) ∨
        jsIncludesCI ((hGet resp.headers "Cache-Control").getD "") "private" = true
    · simp [h1]
    · simp [h1, hvary]
  · intro ctx resp pd now hvary hst hcc
    have hdec : fetchDecision ctx resp pd now = .skip "hit-for-pass" := by
      simp only [fetchDecision]
      rw [if_neg (by rcases hst with h | h <;> simp [h, hcc]), if_pos (by simp [hvary])]
    refine ⟨hdec, ?_⟩
    rw [hdec]
    simp [missPathStoreWrites]

/-- Witness for `c3_vary_star_amended` at a concrete 200 `Vary: *`
response. -/
theorem c3_vary_star_amended_witness :
    fetchDecision baseContext resp200Vary .allow 0 = .skip "hit-for-pass" ∧
    missPathStoreWrites (fetchDecision baseContext resp200Vary .allow 0)
        baseContext.config 0 =
      [.putPass (hitForPassRecord baseContext.config 0) (hitForPassTtl baseContext.config)] :=
  c3_vary_star_amended.2 baseContext resp200Vary .allow 0 (by decide) (Or.inl rfl) (by decide)

/-! ### Claim C10 — HEAD requests get a null body -/

/-- `finalizeHeaders` reads only the headers of the response and the
claims/static-flag/config of the context. -/
theorem finalizeHeaders_congr (r1 r2 : RespData) (c1 c2 : Context) (s : String)
    (hh : r1.headers = r2.headers) (hc : c1.claims = c2.claims)
    (hs : c1.isStatic = c2.isStatic) (hcfg : c1.config = c2.config) :
    finalizeHeaders r1 c1 s = finalizeHeaders r2 c2 s := by
  simp only [finalizeHeaders, hh, hc, hs, hcfg]

/-- Claim C10: for a `HEAD` request, both response constructors return a
`null` body — `finalizeResponse` (the bypass, pass-through, and miss paths)
and `buildCachedResponse` (the hit and stale paths) — while the status,
status text, and the computed header set are exactly those a non-HEAD
request would receive. -/
theorem c10_head_null_body :
    (∀ (resp : RespData) (ctx : Context) (st : String), ctx.method = "HEAD" →
      (finalizeResponse resp ctx st).body = none ∧
      (finalizeResponse resp ctx st).status = resp.status ∧
      (finalizeResponse resp ctx st).statusText = resp.statusText ∧
      (finalizeResponse resp ctx st).headers =
        (finalizeResponse resp { ctx with method := "GET" } st).headers) ∧
    (∀ (record : CacheRecord) (ctx : Context) (st : String), ctx.method = "HEAD" →
      (buildCachedResponse record ctx st).body = none ∧
      (buildCachedResponse record ctx st).status =
        (buildCachedResponse record { ctx with method := "GET" } st).status ∧
      (buildCachedResponse record ctx st).statusText =
        (buildCachedResponse record { ctx with method := "GET" } st).statusText ∧
      (buildCachedResponse record ctx st).headers =
        (buildCachedResponse record { ctx with method := "GET" } st).headers) := by
  have hfin : ∀ (resp : RespData) (ctx : Context) (st : String), ctx.method = "HEAD" →
      finalizeResponse resp ctx st =
        { status := resp.status, statusText := resp.statusText,
          headers := finalizeHeaders resp ctx st, body := none } := by
    intro resp ctx st hm
    simp only [finalizeResponse, hm]
    rw [if_pos trivial]
  have hget : ∀ (resp : RespData) (ctx : Context) (st : String), ctx.method ≠ "HEAD" →
      (finalizeResponse resp ctx st).status = resp.status ∧
      (finalizeResponse resp ctx st).statusText = resp.statusText ∧
      (finalizeResponse resp ctx st).headers = finalizeHeaders resp ctx st := by
    intro resp ctx st hm
    simp only [finalizeResponse]
    rw [if_neg hm]
    split <;>
      first
        | exact ⟨rfl, rfl, rfl⟩
        | (split <;> exact ⟨rfl, rfl, rfl⟩)
  constructor
  · intro resp ctx st hm
    rw [hfin resp ctx st hm]
    refine ⟨rfl, rfl, rfl, ?_⟩
    rw [(hget resp { ctx with method := "GET" } st (by intro h; simp at h)).2.2]
    rfl
  · intro record ctx st hm
    have hinH : cachedInnerResponse record ctx st =
        { status := match record.status with
            | some s => if s = 0 then 200 else s
            | none => 200
          statusText := jsOrStr (record.statusText.getD "") ""
          headers := hSet (if st = "STALE" then
              hSet (hSet (record.headers.getD []) "X-FPC-Cache" st) "X-FPC-Grace" "normal"
            else hSet (record.headers.getD []) "X-FPC-Cache" st) "X-Magento-Cache-Debug"
            (if st = "HIT" ∨ st = "STALE" then "HIT" else st)
          body := none } := by
      simp only [cachedInnerResponse, hm]
      rw [if_pos trivial]
    have hinG : cachedInnerResponse record { ctx with method := "GET" } st =
        { status := match record.status with
            | some s => if s = 0 then 200 else s
            | none => 200
          statusText := jsOrStr (record.statusText.getD "") ""
          headers := hSet (if st = "STALE" then
              hSet (hSet (record.headers.getD []) "X-FPC-Cache" st) "X-FPC-Grace" "normal"
            else hSet (record.headers.getD []) "X-FPC-Cache" st) "X-Magento-Cache-Debug"
            (if st = "HIT" ∨ st = "STALE" then "HIT" else st)
          body := some (record.body.getD "") } := by
      simp only [cachedInnerResponse]
      rw [if_neg (by intro h; simp at h)]
    have hG := hget (cachedInnerResponse record { ctx with method := "GET" } st)
      { ctx with method := "GET" } st (by intro h; simp at h)
    simp only [buildCachedResponse]
    rw [hfin _ ctx st hm]
    refine ⟨rfl, ?_, ?_, ?_⟩
    · rw [hG.1, hinH, hinG]
    · rw [hG.2.1, hinH, hinG]
    · rw [hG.2.2, hinH, hinG]
      exact finalizeHeaders_congr _ _ _ _ _ rfl rfl rfl rfl

/-- Witness for `c10_head_null_body` at a concrete response and record. -/
theorem c10_head_null_body_witness :
    (finalizeResponse ⟨200, "OK", [("Content-Type", "text/html")], some "<p>x</p>"⟩
      { baseContext with method := "HEAD" } "MISS").body = none ∧
    (buildCachedResponse
      { state := .cache, status := some 200, statusText := some "OK",
        headers := some [("Content-Type", "text/html")], body := some "<p>x</p>",
        expires := 1000, staleUntil := some 2000 }
      { baseContext with method := "HEAD" } "HIT").body = none :=
  ⟨(c10_head_null_body.1 _ _ "MISS" rfl).1, (c10_head_null_body.2 _ _ "HIT" rfl).1⟩

/-! ### Claim C5 — GraphQL identity / cookie-vary branch exclusivity

The cache key is a concatenation of fixed separator tokens (`fpc:`,
`::graphql:`, `:authorized`, `::vary:`, `::vh:`, `::device:`, `::ssl:`,
`::store:`, `::currency:`) and request-derived payloads.  For payloads free
of the `':'` character, an occurrence of `::vary:` (respectively
`::graphql:`) in the finished key would have to start at a `::` that only
the separator tokens can contribute, and on the GraphQL branch no separator
starts with `::va` (on the non-GraphQL branch none starts with `::g`).  The
proof runs that argument with an invariant over the prefix built so far. -/

/-- A character list without `':'`. -/
def colonFree (l : List Char) : Prop := ∀ c ∈ l, c ≠ ':'

instance decColonFree (l : List Char) : Decidable (colonFree l) :=
  inferInstanceAs (Decidable (∀ c ∈ l, c ≠ ':'))

/-- An occurrence of `p` in `a ++ b` lies in `a`, lies in `b`, or straddles
the boundary, splitting `p` into a non-empty suffix of `a` and a non-empty
prefix of `b`. -/
theorem infix_append_cases {α : Type} {p a b : List α} (h : p <:+: a ++ b) :
    p <:+: a ∨ p <:+: b ∨
      ∃ s t, p = s ++ t ∧ s ≠ [] ∧ t ≠ [] ∧ s <:+ a ∧ t <+: b := by
  obtain ⟨u, v, huv⟩ := h
  have h2 : u ++ (p ++ v) = a ++ b := by
    rw [← List.append_assoc]
    exact huv
  rcases List.append_eq_append_iff.mp h2 with ⟨a1, ha1, ha2⟩ | ⟨c1, hc1, hc2⟩
  · rcases List.append_eq_append_iff.mp ha2 with ⟨a2, hb1, hb2⟩ | ⟨c2, hd1, hd2⟩
    · left
      exact ⟨u, a2, by rw [ha1, hb1, List.append_assoc]⟩
    · by_cases hs : a1 = []
      · right; left
        subst hs
        rw [List.nil_append] at hd1
        exact ⟨[], v, by rw [hd2, ← hd1, List.nil_append]⟩
      · by_cases ht : c2 = []
        · left
          subst ht
          rw [List.append_nil] at hd1
          exact ⟨u, [], by rw [ha1, hd1, List.append_nil]⟩
        · right; right
          exact ⟨a1, c2, hd1, hs, ht, ⟨u, ha1.symm⟩, ⟨v, hd2.symm⟩⟩
  · right; left
    exact ⟨c1, v, by rw [hc2, List.append_assoc]⟩

/-- Straddle elimination for the pattern `::va`. -/
theorem not_cva_infix_append {a b : List Char}
    (ha : ¬ [':', ':', 'v', 'a'] <:+: a) (hb : ¬ [':', ':', 'v', 'a'] <:+: b)
    (h1 : ¬ ([':'] <:+ a ∧ [':', 'v', 'a'] <+: b))
    (h2 : ¬ ([':', ':'] <:+ a ∧ ['v', 'a'] <+: b))
    (h3 : ¬ ([':', ':', 'v'] <:+ a ∧ ['a'] <+: b)) :
    ¬ [':', ':', 'v', 'a'] <:+: a ++ b := by
  intro h
  rcases infix_append_cases h with h' | h' | ⟨s, t, hp, hs, ht, hsa, htb⟩
  · exact ha h'
  · exact hb h'
  · rcases s with _ | ⟨c1, s1⟩
    · exact hs rfl
    · rw [List.cons_append] at hp
      injection hp with hh1 hp1
      subst hh1
      rcases s1 with _ | ⟨c2, s2⟩
      · rw [List.nil_append] at hp1
        rw [← hp1] at htb
        exact h1 ⟨hsa, htb⟩
      · rw [List.cons_append] at hp1
        injection hp1 with hh2 hp2
        subst hh2
        rcases s2 with _ | ⟨c3, s3⟩
        · rw [List.nil_append] at hp2
          rw [← hp2] at htb
          exact h2 ⟨hsa, htb⟩
        · rw [List.cons_append] at hp2
          injection hp2 with hh3 hp3
          subst hh3
          rcases s3 with _ | ⟨c4, s4⟩
          · rw [List.nil_append] at hp3
            rw [← hp3] at htb
            exact h3 ⟨hsa, htb⟩
          · rw [List.cons_append] at hp3
            injection hp3 with hh4 hp4
            exact ht (List.append_eq_nil.mp hp4.symm).2

/-- Straddle elimination for the pattern `::g`. -/
theorem not_cg_infix_append {a b : List Char}
    (ha : ¬ [':', ':', 'g'] <:+: a) (hb : ¬ [':', ':', 'g'] <:+: b)
    (h1 : ¬ ([':'] <:+ a ∧ [':', 'g'] <+: b))
    (h2 : ¬ ([':', ':'] <:+ a ∧ ['g'] <+: b)) :
    ¬ [':', ':', 'g'] <:+: a ++ b := by
  intro h
  rcases infix_append_cases h with h' | h' | ⟨s, t, hp, hs, ht, hsa, htb⟩
  · exact ha h'
  · exact hb h'
  · rcases s with _ | ⟨c1, s1⟩
    · exact hs rfl
    · rw [List.cons_append] at hp
      injection hp with hh1 hp1
      subst hh1
      rcases s1 with _ | ⟨c2, s2⟩
      · rw [List.nil_append] at hp1
        rw [← hp1] at htb
        exact h1 ⟨hsa, htb⟩
      · rw [List.cons_append] at hp1
        injection hp1 with hh2 hp2
        subst hh2
        rcases s2 with _ | ⟨c3, s3⟩
        · rw [List.nil_append] at hp2
          rw [← hp2] at htb
          exact h2 ⟨hsa, htb⟩
        · rw [List.cons_append] at hp2
          injection hp2 with hh3 hp3
          exact ht (List.append_eq_nil.mp hp3.symm).2

/-- A suffix no longer than the right summand is a suffix of it. -/
theorem suffix_of_append_right {α : Type} {s x c : List α}
    (h : s <:+ x ++ c) (hl : s.length ≤ c.length) : s <:+ c := by
  rw [← List.reverse_prefix] at h ⊢
  rw [List.reverse_append] at h
  exact (List.isPrefix_append_of_length (by simpa using hl)).mp h

/-- The last element of a suffix of `x ++ c` is in `c` when `c` is not
empty. -/
theorem last_mem_of_suffix_append {x c s : List Char} {d : Char}
    (h : (s ++ [d]) <:+ x ++ c) (hcne : c ≠ []) : d ∈ c := by
  rw [← List.reverse_prefix] at h
  rw [List.reverse_append, List.reverse_append] at h
  simp only [List.reverse_cons, List.reverse_nil, List.nil_append] at h
  obtain ⟨e, t, he⟩ := List.exists_cons_of_ne_nil (show c.reverse ≠ [] by simpa using hcne)
  rw [he, List.cons_append] at h
  rcases List.cons_prefix_cons.mp h with ⟨hd, _⟩
  have hmem : e ∈ c.reverse := by
    rw [he]
    exact List.mem_cons_self e t
  rw [List.mem_reverse] at hmem
  rwa [hd]

/-- Invariant for the GraphQL branch walk: the prefix of the key built so
far has no occurrence of `::va` and does not end in `::` or `::v`. -/
def InvA (l : List Char) : Prop :=
  ¬ [':', ':', 'v', 'a'] <:+: l ∧ ¬ [':', ':'] <:+ l ∧ ¬ [':', ':', 'v'] <:+ l

/-- Invariant for the non-GraphQL branch walk: no occurrence of `::g`, and
the prefix does not end in `::`. -/
def InvB (l : List Char) : Prop :=
  ¬ [':', ':', 'g'] <:+: l ∧ ¬ [':', ':'] <:+ l

/-- `::` cannot be a suffix after appending a non-empty colon-free chunk. -/
theorem colon2_not_suffix_append {x c : List Char} (hc : colonFree c) (hcne : c ≠ []) :
    ¬ [':', ':'] <:+ x ++ c := by
  intro h
  exact hc ':' (last_mem_of_suffix_append (s := [':']) h hcne) rfl

/-- `::v` cannot be a suffix after appending a colon-free chunk to an
`InvA`-safe prefix. -/
theorem colon2v_not_suffix_append {x c : List Char} (hc : colonFree c)
    (hx2 : ¬ [':', ':'] <:+ x) (hx3 : ¬ [':', ':', 'v'] <:+ x) :
    ¬ [':', ':', 'v'] <:+ x ++ c := by
  intro h
  rcases c with _ | ⟨d, ds⟩
  · rw [List.append_nil] at h
    exact hx3 h
  · rcases ds with _ | ⟨d2, ds2⟩
    · rw [← List.reverse_prefix] at h
      rw [List.reverse_append] at h
      simp only [List.reverse_cons, List.reverse_nil, List.nil_append] at h
      rcases List.cons_prefix_cons.mp h with ⟨_, htl⟩
      apply hx2
      rw [← List.reverse_prefix]
      simpa using htl
    · have hlen : 2 ≤ (d :: d2 :: ds2).length := by simp
      rw [← List.reverse_prefix] at h
      rw [List.reverse_append] at h
      obtain ⟨e1, t1, he1⟩ := List.exists_cons_of_ne_nil
        (show (d :: d2 :: ds2).reverse ≠ [] by simp)
      have ht1ne : t1 ≠ [] := by
        intro hnil
        have := congrArg List.length he1
        rw [hnil] at this
        simp at this
      obtain ⟨e2, t2, he2⟩ := List.exists_cons_of_ne_nil ht1ne
      rw [he1, he2] at h
      simp only [List.cons_append] at h
      rcases List.cons_prefix_cons.mp h with ⟨_, h'⟩
      rcases List.cons_prefix_cons.mp h' with ⟨he2c, _⟩
      have hmem : e2 ∈ (d :: d2 :: ds2).reverse := by
        rw [he1, he2]
        exact List.mem_cons_of_mem _ (List.mem_cons_self _ _)
      rw [List.mem_reverse] at hmem
      exact hc e2 hmem he2c.symm

/-- Appending a colon-free chunk preserves `InvA`. -/
theorem invA_append_colonfree {x c : List Char} (hx : InvA x) (hc : colonFree c) :
    InvA (x ++ c) := by
  obtain ⟨hxi, hx2, hx3⟩ := hx
  by_cases hcz : c = []
  · subst hcz
    rw [List.append_nil]
    exact ⟨hxi, hx2, hx3⟩
  refine ⟨?_, ?_, ?_⟩
  · apply not_cva_infix_append hxi
    · intro h
      exact hc ':' (h.subset (by simp)) rfl
    · rintro ⟨_, hpre⟩
      exact hc ':' (hpre.subset (by simp)) rfl
    · rintro ⟨hsx, _⟩
      exact hx2 hsx
    · rintro ⟨hsx, _⟩
      exact hx3 hsx
  · exact colon2_not_suffix_append hc hcz
  · exact colon2v_not_suffix_append hc hx2 hx3

/-- Appending a separator token (no `::va` occurrence, not starting with
`:va`, not ending in `::` or `::v`, length at least 3) preserves `InvA`. -/
theorem invA_append_lit {x c : List Char} (hx : InvA x)
    (h0 : ¬ [':', ':', 'v', 'a'] <:+: c) (h1 : ¬ [':', 'v', 'a'] <+: c)
    (h2c : ¬ [':', ':'] <:+ c) (h3c : ¬ [':', ':', 'v'] <:+ c)
    (hlen : 3 ≤ c.length) : InvA (x ++ c) := by
  obtain ⟨hxi, hx2, hx3⟩ := hx
  refine ⟨?_, ?_, ?_⟩
  · apply not_cva_infix_append hxi h0
    · rintro ⟨_, hpre⟩
      exact h1 hpre
    · rintro ⟨hsx, _⟩
      exact hx2 hsx
    · rintro ⟨hsx, _⟩
      exact hx3 hsx
  · intro h
    exact h2c (suffix_of_append_right h (by simp; omega))
  · intro h
    exact h3c (suffix_of_append_right h (by simp; omega))

/-- Appending a colon-free chunk preserves `InvB`. -/
theorem invB_append_colonfree {x c : List Char} (hx : InvB x) (hc : colonFree c) :
    InvB (x ++ c) := by
  obtain ⟨hxi, hx2⟩ := hx
  by_cases hcz : c = []
  · subst hcz
    rw [List.append_nil]
    exact ⟨hxi, hx2⟩
  refine ⟨?_, ?_⟩
  · apply not_cg_infix_append hxi
    · intro h
      exact hc ':' (h.subset (by simp)) rfl
    · rintro ⟨_, hpre⟩
      exact hc ':' (hpre.subset (by simp)) rfl
    · rintro ⟨hsx, _⟩
      exact hx2 hsx
  · exact colon2_not_suffix_append hc hcz

/-- Appending a separator token (no `::g`, not starting with `:g`, not
ending in `::`, length at least 2) preserves `InvB`. -/
theorem invB_append_lit {x c : List Char} (hx : InvB x)
    (h0 : ¬ [':', ':', 'g'] <:+: c) (h1 : ¬ [':', 'g'] <+: c)
    (h2c : ¬ [':', ':'] <:+ c) (hlen : 2 ≤ c.length) : InvB (x ++ c) := by
  obtain ⟨hxi, hx2⟩ := hx
  refine ⟨?_, ?_⟩
  · apply not_cg_infix_append hxi h0
    · rintro ⟨_, hpre⟩
      exact h1 hpre
    · rintro ⟨hsx, _⟩
      exact hx2 hsx
  · intro h
    exact h2c (suffix_of_append_right h (by simp; omega))

/-- Characters of a `join` come from the separator or from one of the
parts. -/
theorem mem_joinSepL {sep : List Char} {parts : List (List Char)} {c : Char}
    (h : c ∈ joinSepL sep parts) : c ∈ sep ∨ ∃ p ∈ parts, c ∈ p := by
  induction parts with
  | nil => simp [joinSepL] at h
  | cons x xs ih =>
    cases xs with
    | nil =>
      simp only [joinSepL] at h
      exact Or.inr ⟨x, by simp, h⟩
    | cons y ys =>
      simp only [joinSepL] at h
      rcases List.mem_append.mp h with h' | h'
      · rcases List.mem_append.mp h' with h'' | h''
        · exact Or.inr ⟨x, by simp, h''⟩
        · exact Or.inl h''
      · rcases ih h' with h'' | ⟨p, hp, hcp⟩
        · exact Or.inl h''
        · exact Or.inr ⟨p, List.mem_cons_of_mem _ hp, hcp⟩

/-- String-level version of `mem_joinSepL`. -/
theorem mem_joinSep_data {sep : String} {parts : List String} {c : Char}
    (h : c ∈ (joinSep sep parts).data) : c ∈ sep.data ∨ ∃ p ∈ parts, c ∈ p.data := by
  have h' : c ∈ joinSepL sep.data (parts.map String.data) := h
  rcases mem_joinSepL h' with h'' | ⟨p, hp, hcp⟩
  · exact Or.inl h''
  · obtain ⟨q, hq, hqd⟩ := List.mem_map.mp hp
    refine Or.inr ⟨q, hq, ?_⟩
    rw [hqd]
    exact hcp

/-- Characters of any chunk of a `split` come from the split input. -/
theorem mem_splitOnCharL {sep : Char} {l : List Char} :
    ∀ {part : List Char} {c : Char}, part ∈ splitOnCharL sep l → c ∈ part → c ∈ l := by
  induction l with
  | nil =>
    intro part c hp hc
    simp [splitOnCharL] at hp
    subst hp
    simp at hc
  | cons c0 rest ih =>
    intro part c hp hc
    simp only [splitOnCharL] at hp
    split at hp
    · rcases List.mem_cons.mp hp with h' | h'
      · subst h'
        simp at hc
      · exact List.mem_cons_of_mem _ (ih h' hc)
    · split at hp
      · rcases List.mem_cons.mp hp with h' | h'
        · subst h'
          rcases List.mem_singleton.mp hc with rfl
          exact List.mem_cons_self _ _
        · simp at h'
      · rename_i hh tt heq
        rcases List.mem_cons.mp hp with h' | h'
        · subst h'
          rcases List.mem_cons.mp hc with h'' | h''
          · subst h''
            exact List.mem_cons_self _ _
          · have hm : hh ∈ splitOnCharL sep rest := by
              rw [heq]
              exact List.mem_cons_self _ _
            exact List.mem_cons_of_mem _ (ih hm h'')
        · have hm : part ∈ splitOnCharL sep rest := by
            rw [heq]
            exact List.mem_cons_of_mem _ h'
          exact List.mem_cons_of_mem _ (ih hm hc)

/-- Characters of a `trim` come from the trimmed input. -/
theorem mem_trimL {l : List Char} {c : Char} (h : c ∈ trimL l) : c ∈ l := by
  unfold trimL at h
  rw [List.mem_reverse] at h
  have h1 : c ∈ (l.dropWhile Char.isWhitespace).reverse :=
    (List.dropWhile_sublist _).subset h
  rw [List.mem_reverse] at h1
  exact (List.dropWhile_sublist _).subset h1

/-- The cookie-vary fragment inherits colon-freeness from the cookie
header. -/
theorem colonFree_extractCookieValue {header : String} {names : List String}
    (h : colonFree header.data) : colonFree (extractCookieValue header names).data := by
  intro c hc
  unfold extractCookieValue at hc
  split at hc
  · simp at hc
  · rcases mem_joinSep_data hc with hsep | ⟨p, hp, hcp⟩
    · simp at hsep
      subst hsep
      decide
    · obtain ⟨name, hname, hf⟩ := List.mem_filterMap.mp hp
      split at hf
      · rename_i found heq
        injection hf with hf1
        subst hf1
        split at hcp
        · rename_i l0 v rest heq2
          -- hcp : c ∈ v; v is a chunk of splitting found on '='
          have hvmem : v ∈ splitOnCharL '=' found.data := by
            rw [heq2]
            exact List.mem_cons_of_mem _ (List.mem_cons_self _ _)
          have hcfound : c ∈ found.data := mem_splitOnCharL hvmem hcp
          -- found is a trimmed chunk of splitting the header on ';'
          have hfmem := List.mem_of_find?_eq_some heq
          have hfmem2 := (List.mem_filter.mp hfmem).1
          obtain ⟨piece, hpiece, hpe⟩ := List.mem_map.mp hfmem2
          obtain ⟨pl, hpl, hple⟩ := List.mem_map.mp hpiece
          have hfd : found.data = trimL pl := by
            rw [← hpe, ← hple]
            rfl
          rw [hfd] at hcfound
          exact h c (mem_splitOnCharL hpl (mem_trimL hcfound))
        · simp at hcp
      · exact absurd hf (by simp)

/-- The vary-headers fragment inherits colon-freeness from the configured
names and the request-header values. -/
theorem colonFree_extractVaryHeaders {headers : List (String × String)}
    {names : List String} (hn : ∀ n ∈ names, colonFree n.data)
    (hv : ∀ p ∈ headers, colonFree p.2.data) :
    colonFree (extractVaryHeaders headers names).data := by
  intro c hc
  unfold extractVaryHeaders at hc
  split at hc
  · simp at hc
  · rcases mem_joinSep_data hc with hsep | ⟨p, hp, hcp⟩
    · simp at hsep
      subst hsep
      decide
    · obtain ⟨name, hname, hf⟩ := List.mem_filterMap.mp hp
      split at hf
      · rename_i v heq
        split at hf
        · exact absurd hf (by simp)
        · rename_i hvne
          injection hf with hf1
          subst hf1
          rw [String.data_append, String.data_append] at hcp
          rcases List.mem_append.mp hcp with h1 | h1
          · rcases List.mem_append.mp h1 with h2 | h2
            · exact hn name hname c h2
            · simp at h2
              subst h2
              decide
          · -- c ∈ v.data where `some v = hGet headers name`
            obtain ⟨q, hq⟩ := Option.map_eq_some'.mp heq
            have hqmem := List.mem_of_find?_eq_some hq.1
            have : v = q.2 := hq.2.symm
            subst this
            exact hv q hqmem c h1
      · exact absurd hf (by simp)

/-- The serialized query component inherits colon-freeness from the pair
keys and values. -/
theorem colonFree_renderPairs {l : List (String × String)}
    (h : ∀ p ∈ l, colonFree p.1.data ∧ colonFree p.2.data) :
    colonFree (renderPairs l).data := by
  intro c hc
  unfold renderPairs at hc
  rcases mem_joinSep_data hc with hsep | ⟨p, hp, hcp⟩
  · simp at hsep
    subst hsep
    decide
  · obtain ⟨q, hq, hqe⟩ := List.mem_map.mp hp
    subst hqe
    rw [String.data_append, String.data_append] at hcp
    rcases List.mem_append.mp hcp with h1 | h1
    · rcases List.mem_append.mp h1 with h2 | h2
      · exact (h q hq).1 c h2
      · simp at h2
        subst h2
        decide
    · exact (h q hq).2 c h1

/-- The detected device class is one of three colon-free words. -/
theorem colonFree_detectDeviceType (ua : String) (cfg : Config) :
    colonFree (detectDeviceType ua cfg).data := by
  unfold detectDeviceType
  split
  · decide
  · split
    · decide
    · split
      · decide
      · decide

/-- The host/path/query prefix of the key satisfies the GraphQL-branch
invariant. -/
theorem invA_keyQuery (ctx : Context)
    (hhost : colonFree ctx.hostname.data) (hpath : colonFree ctx.pathname.data)
    (hqp : ∀ p ∈ ctx.queryPairs, colonFree p.1.data ∧ colonFree p.2.data) :
    InvA (keyQuery ctx).data := by
  have h0 : InvA "fpc:".data := ⟨by decide, by decide, by decide⟩
  have hbase : InvA (keyBase ctx).data := by
    have h1 := invA_append_colonfree (invA_append_colonfree h0 hhost) hpath
    unfold keyBase
    rw [String.data_append, String.data_append]
    exact h1
  simp only [keyQuery]
  split
  · split
    · rw [String.data_append, String.data_append]
      exact invA_append_colonfree (invA_append_colonfree hbase (by decide))
        (colonFree_renderPairs fun p hp =>
          hqp p (((List.mergeSort_perm _ _).mem_iff).mp hp))
    · exact hbase
  · exact hbase

/-- The host/path/query prefix of the key satisfies the non-GraphQL-branch
invariant. -/
theorem invB_keyQuery (ctx : Context)
    (hhost : colonFree ctx.hostname.data) (hpath : colonFree ctx.pathname.data)
    (hqp : ∀ p ∈ ctx.queryPairs, colonFree p.1.data ∧ colonFree p.2.data) :
    InvB (keyQuery ctx).data := by
  have h0 : InvB "fpc:".data := ⟨by decide, by decide⟩
  have hbase : InvB (keyBase ctx).data := by
    have h1 := invB_append_colonfree (invB_append_colonfree h0 hhost) hpath
    unfold keyBase
    rw [String.data_append, String.data_append]
    exact h1
  simp only [keyQuery]
  split
  · split
    · rw [String.data_append, String.data_append]
      exact invB_append_colonfree (invB_append_colonfree hbase (by decide))
        (colonFree_renderPairs fun p hp =>
          hqp p (((List.mergeSort_perm _ _).mem_iff).mp hp))
    · exact hbase
  · exact hbase

/-- On the GraphQL-identity branch, with colon-free request fields, the
whole key satisfies `InvA` (so in particular contains no `::va`). -/
theorem invA_computeCacheKey (ctx : Context)
    (hg : ctx.isGraphql = true) (hid : ctx.magentoCacheId ≠ "")
    (hhost : colonFree ctx.hostname.data) (hpath : colonFree ctx.pathname.data)
    (hqp : ∀ p ∈ ctx.queryPairs, colonFree p.1.data ∧ colonFree p.2.data)
    (hidcf : colonFree ctx.magentoCacheId.data)
    (hvhn : ∀ n ∈ ctx.config.varyHeaders, colonFree n.data)
    (hrhv : ∀ p ∈ ctx.reqHeaders, colonFree p.2.data)
    (hssl : colonFree ctx.sslOffloaded.data)
    (hstore : colonFree ctx.store.data) (hcur : colonFree ctx.currency.data) :
    InvA (computeCacheKey ctx).data := by
  have hq := invA_keyQuery ctx hhost hpath hqp
  have hident : InvA (keyIdentity ctx).data := by
    unfold keyIdentity
    rw [if_pos ⟨hg, hid⟩]
    rw [String.data_append, String.data_append, String.data_append]
    have h1 : InvA ((keyQuery ctx).data ++ "::graphql:".data) :=
      invA_append_lit hq (by decide) (by decide) (by decide) (by decide) (by decide)
    have h2 := invA_append_colonfree h1 hidcf
    by_cases hauth : ctx.hasAuthToken = true
    · rw [if_pos hauth]
      exact invA_append_lit h2 (by decide) (by decide) (by decide) (by decide) (by decide)
    · rw [if_neg hauth]
      rw [show ("" : String).data = [] from rfl, List.append_nil]
      exact h2
  have hvh : InvA (keyVaryHeaders ctx).data := by
    simp only [keyVaryHeaders]
    split
    · rw [String.data_append, String.data_append]
      exact invA_append_colonfree
        (invA_append_lit hident (by decide) (by decide) (by decide) (by decide) (by decide))
        (colonFree_extractVaryHeaders hvhn hrhv)
    · exact hident
  have hdev : InvA (keyDevice ctx).data := by
    simp only [keyDevice]
    split
    · rw [String.data_append, String.data_append]
      exact invA_append_colonfree
        (invA_append_lit hvh (by decide) (by decide) (by decide) (by decide) (by decide))
        (colonFree_detectDeviceType _ _)
    · exact hvh
  have hsslk : InvA (keySsl ctx).data := by
    simp only [keySsl]
    split
    · rw [String.data_append, String.data_append]
      exact invA_append_colonfree
        (invA_append_lit hdev (by decide) (by decide) (by decide) (by decide) (by decide))
        hssl
    · exact hdev
  have hstk : InvA ((if ctx.store ≠ "" then keySsl ctx ++ "::store:" ++ ctx.store
      else keySsl ctx)).data := by
    split
    · rw [String.data_append, String.data_append]
      exact invA_append_colonfree
        (invA_append_lit hsslk (by decide) (by decide) (by decide) (by decide) (by decide))
        hstore
    · exact hsslk
  simp only [computeCacheKey, keyStoreCurrency]
  rw [if_pos hg]
  split
  · rw [String.data_append, String.data_append]
    exact invA_append_colonfree
      (invA_append_lit hstk (by decide) (by decide) (by decide) (by decide) (by decide))
      hcur
  · exact hstk

/-- On the non-GraphQL branch, with colon-free request fields, the whole
key satisfies `InvB` (so in particular contains no `::g`). -/
theorem invB_computeCacheKey (ctx : Context)
    (hg : ctx.isGraphql = false)
    (hhost : colonFree ctx.hostname.data) (hpath : colonFree ctx.pathname.data)
    (hqp : ∀ p ∈ ctx.queryPairs, colonFree p.1.data ∧ colonFree p.2.data)
    (hck : colonFree ctx.cookieHeader.data)
    (hvhn : ∀ n ∈ ctx.config.varyHeaders, colonFree n.data)
    (hrhv : ∀ p ∈ ctx.reqHeaders, colonFree p.2.data)
    (hssl : colonFree ctx.sslOffloaded.data) :
    InvB (computeCacheKey ctx).data := by
  have hq := invB_keyQuery ctx hhost hpath hqp
  have hident : InvB (keyIdentity ctx).data := by
    simp only [keyIdentity]
    rw [if_neg (by simp [hg])]
    split
    · rw [String.data_append, String.data_append]
      exact invB_append_colonfree
        (invB_append_lit hq (by decide) (by decide) (by decide) (by decide))
        (colonFree_extractCookieValue hck)
    · exact hq
  have hvh : InvB (keyVaryHeaders ctx).data := by
    simp only [keyVaryHeaders]
    split
    · rw [String.data_append, String.data_append]
      exact invB_append_colonfree
        (invB_append_lit hident (by decide) (by decide) (by decide) (by decide))
        (colonFree_extractVaryHeaders hvhn hrhv)
    · exact hident
  have hdev : InvB (keyDevice ctx).data := by
    simp only [keyDevice]
    split
    · rw [String.data_append, String.data_append]
      exact invB_append_colonfree
        (invB_append_lit hvh (by decide) (by decide) (by decide) (by decide))
        (colonFree_detectDeviceType _ _)
    · exact hvh
  have hsslk : InvB (keySsl ctx).data := by
    simp only [keySsl]
    split
    · rw [String.data_append, String.data_append]
      exact invB_append_colonfree
        (invB_append_lit hdev (by decide) (by decide) (by decide) (by decide))
        hssl
    · exact hdev
  simp only [computeCacheKey, keyStoreCurrency]
  rw [if_neg (by simp [hg])]
  exact hsslk

/-- Claim C5 (counterexample): the key segments are joined by plain string
concatenation, so a cache-identity header whose value itself embeds
`::vary:` puts that byte sequence into the key of a GraphQL request —
refuting "never contains" over arbitrary requests. -/
theorem c5_graphql_vary_counterexample :
    ({ baseContext with isGraphql := true, magentoCacheId := "x::vary:y" } :
      Context).isGraphql = true ∧
    ({ baseContext with isGraphql := true, magentoCacheId := "x::vary:y" } :
      Context).magentoCacheId ≠ "" ∧
    "::vary:".data <:+: (computeCacheKey
      { baseContext with isGraphql := true, magentoCacheId := "x::vary:y" }).data := by
  refine ⟨rfl, by decide, by decide⟩

/-- Claim C5 (amended): for a request whose host, path, query pairs,
cache-identity header, cookie header, configured vary-header names,
request-header values, SSL marker, store and currency are free of the `':'`
character, the two key branches are exclusive: a GraphQL request carrying a
cache-identity header derives a key with no `::vary:` occurrence, and a
non-GraphQL request derives a key with no `::graphql:` occurrence. -/
theorem c5_branch_exclusivity (ctx : Context)
    (hhost : colonFree ctx.hostname.data) (hpath : colonFree ctx.pathname.data)
    (hqp : ∀ p ∈ ctx.queryPairs, colonFree p.1.data ∧ colonFree p.2.data)
    (hidcf : colonFree ctx.magentoCacheId.data)
    (hck : colonFree ctx.cookieHeader.data)
    (hvhn : ∀ n ∈ ctx.config.varyHeaders, colonFree n.data)
    (hrhv : ∀ p ∈ ctx.reqHeaders, colonFree p.2.data)
    (hssl : colonFree ctx.sslOffloaded.data)
    (hstore : colonFree ctx.store.data) (hcur : colonFree ctx.currency.data) :
    (ctx.isGraphql = true → ctx.magentoCacheId ≠ "" →
      ¬ ("::vary:".data <:+: (computeCacheKey ctx).data)) ∧
    (ctx.isGraphql = false →
      ¬ ("::graphql:".data <:+: (computeCacheKey ctx).data)) := by
  constructor
  · intro hg hid h
    have hinv := invA_computeCacheKey ctx hg hid hhost hpath hqp hidcf hvhn hrhv hssl
      hstore hcur
    exact hinv.1 (List.IsInfix.trans (by decide) h)
  · intro hg h
    have hinv := invB_computeCacheKey ctx hg hhost hpath hqp hck hvhn hrhv hssl
    exact hinv.1 (List.IsInfix.trans (by decide) h)

/-- Witness for `c5_branch_exclusivity`: a GraphQL request with
cache-identity `abc123`, and the plain anonymous request. -/
theorem c5_branch_exclusivity_witness :
    ¬ ("::vary:".data <:+: (computeCacheKey
      { baseContext with isGraphql := true, magentoCacheId := "abc123" }).data) ∧
    ¬ ("::graphql:".data <:+: (computeCacheKey baseContext).data) :=
  ⟨(c5_branch_exclusivity
      { baseContext with isGraphql := true, magentoCacheId := "abc123" }
      (by decide) (by decide) (by decide) (by decide) (by decide) (by decide)
      (by decide) (by decide) (by decide) (by decide)).1 rfl (by decide),
   (c5_branch_exclusivity baseContext
      (by decide) (by decide) (by decide) (by decide) (by decide) (by decide)
      (by decide) (by decide) (by decide) (by decide)).2 rfl⟩
